import Mathlib

/-!
Verification development for the tarmac asset-synchronization tool (Rust).

The Rust sources under `src/` are shallowly embedded below: pure functions become
Lean functions; network calls are modelled by explicit oracle functions (the n-th
response the remote host produces, or the response per asset id); machine integers
are `Nat`; Rust `Result`/panics/divergence are modelled by the four-way outcome
type `RustOutcome`.  Definitions follow the structure of the corresponding Rust
items and keep their names where possible.
-/

set_option maxHeartbeats 1000000

/-- Model of `RobloxApiError` (src/roblox_api/mod.rs), plus `BailMsg` for the
ad-hoc `bail!("...")` messages used in src/roblox_api/legacy.rs. -/
inductive RobloxApiErr where
  | Http
  | ApiError (message : String)
  | BadResponseJson (body : String)
  | ResponseError (status : Nat) (body : String)
  | MissingCsrfToken
  | AssetGetFailed
  | ApiKeyNeedsCreatorId
  | MissingAuth
  | AmbiguousCreatorType
  | MissingOperationPath
  | MalformedOperationPath
  | RbxCloud
  | MalformedAssetId
  | BailMsg (msg : String)
deriving DecidableEq, Repr

/-- Outcome of running a Rust computation: a value, an error value, a panic
(`todo!`, `unreachable!`, `Option::unwrap` on `None`), or divergence (the call
never returns: an infinite loop or a deadlock). -/
inductive RustOutcome (α : Type) where
  | ok (a : α)
  | err (e : RobloxApiErr)
  | panicked (msg : String)
  | diverged
deriving DecidableEq, Repr

/-- Whether an outcome is an error value (a returned `Err`). -/
def RustOutcome.isErr {α : Type} : RustOutcome α → Bool
  | .err _ => true
  | _ => false

/-- Model of `RobloxCredentials` (src/roblox_api/mod.rs); secrets are strings. -/
structure RobloxCredentials where
  token : Option String
  api_key : Option String
  user_id : Option Nat
  group_id : Option Nat
deriving DecidableEq, Repr

/-- Model of `rbxcloud`'s `AssetCreator` (ids are stringified, as in the source). -/
inductive AssetCreator where
  | group (group_id : String)
  | user (user_id : String)
deriving DecidableEq, Repr

/-- Model of `OpenCloudClient` (src/roblox_api/open_cloud.rs): the only state the
claims depend on is the structured creator reference. -/
structure OpenCloudClient where
  creator : AssetCreator
deriving DecidableEq, Repr

/-- `OpenCloudClient::new` (src/roblox_api/open_cloud.rs lines 28-51): the creator
match runs first; `(None, None)` and `(Some, Some)` hit `unreachable!()`; only then
is the API key checked (`MissingAuth` if absent). -/
def OpenCloudClient.new (credentials : RobloxCredentials) : RustOutcome OpenCloudClient :=
  match credentials.group_id, credentials.user_id with
  | some id, none =>
    match credentials.api_key with
    | none => .err .MissingAuth
    | some _ => .ok ⟨.group (toString id)⟩
  | none, some id =>
    match credentials.api_key with
    | none => .err .MissingAuth
    | some _ => .ok ⟨.user (toString id)⟩
  | _, _ => .panicked "internal error: entered unreachable code"

/-- The two client variants behind `Box<dyn RobloxApiClient>`.  `legacy` is the
variant the commented-out `LegacyClient::new` line would produce. -/
inductive PreferredClient where
  | openCloud (client : OpenCloudClient)
  | legacy
deriving DecidableEq, Repr

/-- `get_preferred_client` (src/roblox_api/mod.rs lines 105-142).  Match arms in
source order: no token and no API key is `MissingAuth`; both group and user id is
`AmbiguousCreatorType`; an API key selects `OpenCloudClient::new`; the remaining
arm (token present, no API key) executes `todo!()`, i.e. panics with
"not yet implemented" instead of building the legacy client. -/
def get_preferred_client (credentials : RobloxCredentials) : RustOutcome PreferredClient :=
  if credentials.token = none ∧ credentials.api_key = none then .err .MissingAuth
  else if credentials.group_id.isSome ∧ credentials.user_id.isSome then .err .AmbiguousCreatorType
  else if credentials.api_key.isSome then
    match OpenCloudClient.new credentials with
    | .ok client => .ok (.openCloud client)
    | .err e => .err e
    | .panicked msg => .panicked msg
    | .diverged => .diverged
  else .panicked "not yet implemented"

/-- Client selection as the amended claim C1 states it, written from the amended
words: neither token nor API key fails with `MissingAuth`; otherwise both group
and user id fails with `AmbiguousCreatorType`; otherwise an API key with exactly
one creator id yields the modern variant, an API key with no creator id panics
(unreachable), and a token without an API key panics (legacy construction is an
unimplemented `todo!()`). -/
def amendedClientSelection (credentials : RobloxCredentials) : RustOutcome PreferredClient :=
  if credentials.token = none ∧ credentials.api_key = none then .err .MissingAuth
  else if credentials.group_id.isSome ∧ credentials.user_id.isSome then .err .AmbiguousCreatorType
  else
    match credentials.api_key with
    | some _ =>
      match credentials.group_id, credentials.user_id with
      | some g, none => .ok (.openCloud ⟨.group (toString g)⟩)
      | none, some u => .ok (.openCloud ⟨.user (toString u)⟩)
      | _, _ => .panicked "internal error: entered unreachable code"
    | none => .panicked "not yet implemented"

/-- Claim C1, as stated, is false: with a cookie token and no API key,
`get_preferred_client` does not yield the legacy variant — it panics in the
`todo!()` placeholder of the token-only match arm. -/
theorem claim_C1_counterexample :
    get_preferred_client ⟨some "COOKIE", none, none, none⟩ = .panicked "not yet implemented" ∧
    get_preferred_client ⟨some "COOKIE", none, none, none⟩ ≠ .ok .legacy := by
  constructor
  · rfl
  · intro h
    simp [get_preferred_client] at h

/-- Claim C1 (amended): construction behaves as `amendedClientSelection`:
`MissingAuth` when neither token nor apiKey is present; else `AmbiguousCreatorType`
when both groupId and userId are present; else apiKey with exactly one creator id
yields the modern (Open Cloud) variant, apiKey with no creator id panics in
`unreachable!()`, and a token without apiKey panics in the `todo!()` placeholder
instead of yielding the legacy variant. -/
theorem claim_C1 :
    ∀ credentials : RobloxCredentials,
      get_preferred_client credentials = amendedClientSelection credentials := by
  intro ⟨t, k, u, g⟩
  cases t <;> cases k <;> cases u <;> cases g <;>
    simp [get_preferred_client, amendedClientSelection, OpenCloudClient.new]

/-- `OpenCloudClient::download_image` (src/roblox_api/open_cloud.rs lines 81-85):
the body is `todo!()`, which panics with "not yet implemented"; the commented-out
legacy fallback is never executed. -/
def OpenCloudClient.download_image (_client : OpenCloudClient) (_id : Nat) :
    RustOutcome (List Nat) :=
  .panicked "not yet implemented"

/-- Claim C7, as stated, is false: download on the modern variant does not return
an "unsupported operation" error value — it panics in `todo!()` (and `RobloxApiErr`
has no unsupported-operation variant at all), so the outcome is never an `Err`. -/
theorem claim_C7_counterexample :
    OpenCloudClient.download_image ⟨.user "1"⟩ 999 = .panicked "not yet implemented" ∧
    (OpenCloudClient.download_image ⟨.user "1"⟩ 999).isErr = false := by
  exact ⟨rfl, rfl⟩

/-- Claim C7 (amended): for every id, calling download on the modern (API-key)
variant panics with "not yet implemented" (the `todo!()` placeholder); it never
succeeds, never silently degrades, and never returns an error value. -/
theorem claim_C7 :
    ∀ (client : OpenCloudClient) (id : Nat),
      OpenCloudClient.download_image client id = .panicked "not yet implemented" ∧
      (OpenCloudClient.download_image client id).isErr = false := by
  intro client id
  exact ⟨rfl, rfl⟩

/-! ### Legacy client: CSRF retry protocol (src/roblox_api/legacy.rs) -/

/-- An HTTP response as the CSRF retry logic observes it: the status code, the
value of the `X-CSRF-Token` response header if present, and the body. -/
structure HttpResponse where
  status : Nat
  csrf_header : Option String
  body : String
deriving DecidableEq, Repr

/-- A built legacy request: the logical request produced by `make_request`
(`payload`), plus the two headers `attach_headers` may add. -/
structure LegacyRequest where
  payload : String
  cookie : Option String
  csrf : Option String
deriving DecidableEq, Repr

/-- `LegacyClient::attach_headers` (src/roblox_api/legacy.rs lines 246-261).
It inserts the `.ROBLOSECURITY` cookie, then acquires `self.csrf_token.read().await`.
`csrfWriteGuardHeld` records whether the caller is still holding the write guard
on that same `tokio::sync::RwLock`; tokio's lock is not reentrant, so in that case
the `read().await` never resolves — modelled as `none` (the call never returns). -/
def attach_headers (credentials : RobloxCredentials) (csrfWriteGuardHeld : Bool)
    (csrf_token : Option String) (request : LegacyRequest) : Option LegacyRequest :=
  let cookie : Option String :=
    match credentials.token with
    | some auth_token => some (".ROBLOSECURITY=" ++ auth_token)
    | none => request.cookie
  if csrfWriteGuardHeld then none
  else
    match csrf_token with
    | some csrf => some ⟨request.payload, cookie, some csrf⟩
    | none => some ⟨request.payload, cookie, request.csrf⟩

/-- Result of `execute_with_csrf_retry`: the outcome, the CSRF cache contents
after the call, and every request actually handed to `client.execute`, in order. -/
structure CsrfExecResult where
  outcome : RustOutcome HttpResponse
  csrf_token : Option String
  sent : List LegacyRequest
deriving DecidableEq, Repr

/-- `LegacyClient::execute_with_csrf_retry` (src/roblox_api/legacy.rs lines 211-242).
`server n` is the response the host gives to the n-th executed request.  On a 403
carrying an `X-CSRF-Token` header the code takes the write guard on the token cell,
stores the new token, and — with the guard still in scope — calls `attach_headers`,
whose `read().await` on the same `RwLock` then deadlocks, so the retry request is
never sent (`.diverged`).  A 403 without the header, or any other status, is
returned as-is. -/
def execute_with_csrf_retry (credentials : RobloxCredentials) (csrf_token : Option String)
    (server : Nat → HttpResponse) (payload : String) : CsrfExecResult :=
  match attach_headers credentials false csrf_token ⟨payload, none, none⟩ with
  | none => ⟨.diverged, csrf_token, []⟩
  | some request =>
    let response := server 0
    if response.status = 403 then
      match response.csrf_header with
      | some csrf =>
        let cache := some csrf
        match attach_headers credentials true cache ⟨payload, none, none⟩ with
        | none => ⟨.diverged, cache, [request]⟩
        | some new_request => ⟨.ok (server 1), cache, [request, new_request]⟩
      | none => ⟨.ok response, csrf_token, [request]⟩
    else ⟨.ok response, csrf_token, [request]⟩

/-- Claim C2 (code bug): at the failing input — a 403 response carrying the header
`X-CSRF-Token: T1` — the legacy client stores the new token and then deadlocks:
`attach_headers` awaits a read lock on the `csrf_token` `RwLock` while the retry
path still holds its write guard, so exactly one request is ever sent and the
second send the claim requires never happens.  A 403 without the header is, as the
claim says, returned as-is after a single send. -/
theorem claim_C2_bug :
    execute_with_csrf_retry ⟨some "COOKIE", none, none, none⟩ none
        (fun _ => ⟨403, some "T1", ""⟩) "upload" =
      ⟨.diverged, some "T1", [⟨"upload", some ".ROBLOSECURITY=COOKIE", none⟩]⟩ ∧
    execute_with_csrf_retry ⟨some "COOKIE", none, none, none⟩ none
        (fun _ => ⟨403, none, "denied"⟩) "upload" =
      ⟨.ok ⟨403, none, "denied"⟩, none, [⟨"upload", some ".ROBLOSECURITY=COOKIE", none⟩]⟩ := by
  exact ⟨rfl, rfl⟩

/-! ### Parsing helpers shared by the clients -/

/-- Decimal digit accumulation, as `u64::from_str` consumes its digits. -/
def parseDigits : List Char → Nat → Option Nat
  | [], acc => some acc
  | c :: cs, acc =>
    if c.isDigit then parseDigits cs (acc * 10 + (c.toNat - 48)) else none

/-- Model of Rust `u64::from_str`: an optional leading sign, then at least one
decimal digit, value below 2^64. -/
def parseU64Chars (cs : List Char) : Option Nat :=
  let ds := match cs with
    | '+' :: rest => rest
    | other => other
  match ds with
  | [] => none
  | _ =>
    match parseDigits ds 0 with
    | some n => if n < 2 ^ 64 then some n else none
    | none => none

/-- Rust `u64::from_str` on a string. -/
def parseU64 (s : String) : Option Nat := parseU64Chars s.toList

/-! ### Modern client: operation polling with backoff (src/roblox_api/open_cloud.rs) -/

/-- `MAX_RETRIES` from `upload_image_inner`. -/
def MAX_RETRIES : Nat := 5

/-- `INITIAL_SLEEP_DURATION` from `upload_image_inner`, in milliseconds. -/
def INITIAL_SLEEP_MS : Nat := 50

/-- `BACKOFF` from `upload_image_inner` (the exponent applied to the counter). -/
def BACKOFF : Nat := 2

/-- Trace of the polling loop: its outcome, how many times `assets.get` was
called, and the backoff sleeps performed (in milliseconds, in order). -/
structure PollTrace where
  result : RustOutcome Nat
  polls : Nat
  sleeps_ms : List Nat
deriving DecidableEq, Repr

/-- The polling loop of `upload_image_inner` (src/roblox_api/open_cloud.rs lines
114-140).  `get k` is the k-th poll's answer: `none` models an in-progress
operation (`res.response` absent), `some s` a terminal response whose asset-id
string is `s`.  On in-progress the code fails only once `retry_count` strictly
exceeds `MAX_RETRIES`; otherwise it increments the counter and sleeps
`INITIAL_SLEEP_DURATION * retry_count^BACKOFF` before the next poll.  A parse
failure of the asset-id string is `AssetGetFailed`. -/
def poll_for_asset_id (get : Nat → Option String) (k retry_count : Nat) : PollTrace :=
  match get k with
  | some asset_id_str =>
    match parseU64 asset_id_str with
    | some asset_id => ⟨.ok asset_id, 1, []⟩
    | none => ⟨.err .AssetGetFailed, 1, []⟩
  | none =>
    if h : retry_count > MAX_RETRIES then ⟨.err .AssetGetFailed, 1, []⟩
    else
      let rest := poll_for_asset_id get (k + 1) (retry_count + 1)
      ⟨rest.result, rest.polls + 1, INITIAL_SLEEP_MS * (retry_count + 1) ^ BACKOFF :: rest.sleeps_ms⟩
termination_by MAX_RETRIES + 1 - retry_count
decreasing_by simp only [MAX_RETRIES] at *; omega

theorem poll_step_terminal {get : Nat → Option String} {k retry_count : Nat} {s : String}
    {asset_id : Nat} (h1 : get k = some s) (h2 : parseU64 s = some asset_id) :
    poll_for_asset_id get k retry_count = ⟨.ok asset_id, 1, []⟩ := by
  rw [poll_for_asset_id, h1]
  simp [h2]

theorem poll_step_retry {get : Nat → Option String} {k retry_count : Nat}
    (h1 : get k = none) (h2 : ¬ retry_count > MAX_RETRIES) :
    poll_for_asset_id get k retry_count =
      ⟨(poll_for_asset_id get (k + 1) (retry_count + 1)).result,
       (poll_for_asset_id get (k + 1) (retry_count + 1)).polls + 1,
       INITIAL_SLEEP_MS * (retry_count + 1) ^ BACKOFF ::
         (poll_for_asset_id get (k + 1) (retry_count + 1)).sleeps_ms⟩ := by
  rw [poll_for_asset_id, h1]
  simp [h2]

theorem poll_step_exhausted {get : Nat → Option String} {k retry_count : Nat}
    (h1 : get k = none) (h2 : retry_count > MAX_RETRIES) :
    poll_for_asset_id get k retry_count = ⟨.err .AssetGetFailed, 1, []⟩ := by
  rw [poll_for_asset_id, h1]
  simp [h2]

theorem poll_always_in_progress :
    poll_for_asset_id (fun _ => none) 0 0 =
      ⟨.err .AssetGetFailed, 7, [50, 200, 450, 800, 1250, 1800]⟩ := by
  have h7 : poll_for_asset_id (fun _ => none) 6 6 = ⟨.err .AssetGetFailed, 1, []⟩ :=
    poll_step_exhausted rfl (by simp [MAX_RETRIES])
  have h6 := @poll_step_retry (fun _ => none) 5 5
    rfl (by simp [MAX_RETRIES])
  have h5 := @poll_step_retry (fun _ => none) 4 4
    rfl (by simp [MAX_RETRIES])
  have h4 := @poll_step_retry (fun _ => none) 3 3
    rfl (by simp [MAX_RETRIES])
  have h3 := @poll_step_retry (fun _ => none) 2 2
    rfl (by simp [MAX_RETRIES])
  have h2 := @poll_step_retry (fun _ => none) 1 1
    rfl (by simp [MAX_RETRIES])
  have h1 := @poll_step_retry (fun _ => none) 0 0
    rfl (by simp [MAX_RETRIES])
  rw [h1, h2, h3, h4, h5, h6, h7]
  simp [INITIAL_SLEEP_MS, BACKOFF]

/-- Claim C4, as stated, is false on its always-in-progress half: a mock that
reports in-progress forever is polled 7 times — not 5 — before `AssetGetFailed`
is returned, because the loop fails only once the counter strictly exceeds
`MAX_RETRIES = 5` and the counter is incremented after the check. -/
theorem claim_C4_counterexample :
    (poll_for_asset_id (fun _ => none) 0 0).result = .err .AssetGetFailed ∧
    (poll_for_asset_id (fun _ => none) 0 0).polls = 7 ∧
    (poll_for_asset_id (fun _ => none) 0 0).polls ≠ 5 := by
  rw [poll_always_in_progress]
  exact ⟨rfl, rfl, by decide⟩

/-- Claim C4 (amended): while the poll reports in-progress the client waits
`50ms × n²` before the n-th repeated poll; a mock answering in-progress for the
first 3 polls then succeeding is polled exactly 4 times and the resolved id is
returned; a mock answering in-progress forever yields `AssetGetFailed` after
exactly 7 poll calls and 6 backoff waits (the counter, incremented after each
check, must strictly exceed `MAX_RETRIES = 5`). -/
theorem claim_C4 :
    (∀ (get : Nat → Option String) (s : String) (asset_id : Nat),
      (∀ k, k < 3 → get k = none) → get 3 = some s → parseU64 s = some asset_id →
        poll_for_asset_id get 0 0 = ⟨.ok asset_id, 4, [50, 200, 450]⟩) ∧
    poll_for_asset_id (fun _ => none) 0 0 =
      ⟨.err .AssetGetFailed, 7, [50, 200, 450, 800, 1250, 1800]⟩ := by
  constructor
  · intro get s asset_id hpre h3 hparse
    have e3 : poll_for_asset_id get 3 3 = ⟨.ok asset_id, 1, []⟩ :=
      poll_step_terminal h3 hparse
    have e2 := @poll_step_retry get 2 2 (hpre 2 (by omega)) (by simp [MAX_RETRIES])
    have e1 := @poll_step_retry get 1 1 (hpre 1 (by omega)) (by simp [MAX_RETRIES])
    have e0 := @poll_step_retry get 0 0 (hpre 0 (by omega)) (by simp [MAX_RETRIES])
    rw [e0, e1, e2, e3]
    simp [INITIAL_SLEEP_MS, BACKOFF]
  · exact poll_always_in_progress

/-- Witness for claim C4 at a concrete mock: in-progress for polls 0-2, then the
terminal string "123". -/
theorem claim_C4_witness :
    poll_for_asset_id (fun k => if k < 3 then none else some "123") 0 0 =
      ⟨.ok 123, 4, [50, 200, 450]⟩ :=
  claim_C4.1 (fun k => if k < 3 then none else some "123") "123" 123
    (fun k hk => by simp [hk]) (by decide) (by decide)

/-! ### Legacy client: download with XML indirection (src/roblox_api/legacy.rs lines 79-145) -/

/-- Model of the events the `xml` crate's pull parser yields. -/
inductive XmlEventM where
  | startDocument
  | startElement (name : String)
  | characters (content : String)
  | endElement (name : String)
  | endDocument
deriving DecidableEq, Repr

/-- One `parser.next()` result: `Ok(event)` or an error. -/
inductive XmlPull where
  | ok (event : XmlEventM)
  | err
deriving DecidableEq, Repr

/-- The asset-delivery host's answer for one id: the raw body bytes, paired with
the event stream an XML pull parser produces on those bytes (the `xml` crate is
external, so its parse of the body is part of the input model). -/
structure AssetDeliveryResponse where
  bytes : List Nat
  events : List XmlPull
deriving DecidableEq, Repr

/-- Outcome of the `loop` at src/roblox_api/legacy.rs lines 101-114. -/
inductive UrlLoopOutcome where
  | brk (content : Option String)
  | bailCharacters
  | ranOut
deriving DecidableEq, Repr

/-- The url-search `loop` (src/roblox_api/legacy.rs lines 101-114): each
iteration pulls one event; only an `Ok(StartElement)` is inspected — a name
other than `url` continues, `url` pulls one more event which must be
`Ok(Characters s)` (else `bail!`), and `break Some(s)` is the loop's only break.
Once the finite event stream is exhausted the real parser never again yields a
start element, so the source loop spins forever: `ranOut` marks that divergence. -/
def find_url_content : List XmlPull → UrlLoopOutcome
  | [] => .ranOut
  | .ok (.startElement name) :: rest =>
    if name ≠ "url" then find_url_content rest
    else
      match rest with
      | .ok (.characters s) :: _ => .brk (some s)
      | _ => .bailCharacters
  | _ :: rest => find_url_content rest

/-- Result of a legacy download: the outcome and the asset ids requested from the
asset-delivery host, in order. -/
structure DownloadResult where
  outcome : RustOutcome (List Nat)
  downloads : List Nat
deriving DecidableEq, Repr

/-- The URL pattern the id is split on (src/roblox_api/legacy.rs line 120). -/
def assetIdPattern : List Char := "http://www.roblox.com/asset/?id=".toList

/-- If `pat` is a leading part of `s`, the remainder of `s` after it. -/
def stripPat : List Char → List Char → Option (List Char)
  | [], s => some s
  | _ :: _, [] => none
  | p :: ps, c :: cs => if p = c then stripPat ps cs else none

/-- First occurrence of `pat` in `s`: the part before it and the part after it. -/
def splitFirstAux (pat : List Char) : List Char → Option (List Char × List Char)
  | [] => none
  | c :: cs =>
    match stripPat pat (c :: cs) with
    | some rest => some ([], rest)
    | none =>
      match splitFirstAux pat cs with
      | some (before, after) => some (c :: before, after)
      | none => none

/-- The second element of Rust's `content.split(pat)` iterator: the segment
between the first occurrence of `pat` and the next occurrence (or the end);
`none` when `pat` does not occur, as for the iterator. -/
def splitSecondPart (pat s : List Char) : Option (List Char) :=
  match splitFirstAux pat s with
  | none => none
  | some (_, after) =>
    match splitFirstAux pat after with
    | none => some after
    | some (between, _) => some between

/-- `LegacyClient::download_image` (src/roblox_api/legacy.rs lines 79-145).
`server id` is the asset-delivery response for `id` (the CSRF layer is exercised
separately; the claims' responses here are plain 200s).  If the first pulled
event is not `Ok(StartDocument)` the raw bytes are returned unchanged; likewise
when the second pull is not an `Ok(StartElement)`.  A root element other than
`roblox` bails; otherwise the url loop runs, the `<url>` text is split on
`http://www.roblox.com/asset/?id=`, the id after it is parsed with
`u64::from_str`, and a second download for that id returns its bytes. -/
def legacy_download_image (server : Nat → AssetDeliveryResponse) (id : Nat) : DownloadResult :=
  match (server id).events with
  | .ok .startDocument :: afterDoc =>
    match afterDoc with
    | .ok (.startElement name) :: afterRoot =>
      if name ≠ "roblox" then ⟨.err (.BailMsg "Unknown XML from asset delivery API"), [id]⟩
      else
        match find_url_content afterRoot with
        | .ranOut => ⟨.diverged, [id]⟩
        | .bailCharacters =>
          ⟨.err (.BailMsg "expected characters after url start element, got something else"), [id]⟩
        | .brk none => ⟨.err (.BailMsg "missing url element in xml response"), [id]⟩
        | .brk (some content) =>
          match splitSecondPart assetIdPattern content.data with
          | none =>
            ⟨.err (.BailMsg "missing asset id - did Roblox change their asset ID format?"), [id]⟩
          | some asset_id_chars =>
            match parseU64Chars asset_id_chars with
            | none => ⟨.err .MalformedAssetId, [id]⟩
            | some asset_id => ⟨.ok (server asset_id).bytes, [id, asset_id]⟩
    | _ => ⟨.ok (server id).bytes, [id]⟩
  | _ => ⟨.ok (server id).bytes, [id]⟩

/-- Whether the first pulled event is `Ok(StartDocument)` — the test the source
uses to decide the body is XML at all. -/
def headOkStartDocument : List XmlPull → Bool
  | .ok .startDocument :: _ => true
  | _ => false

theorem find_url_content_append {mid : List XmlPull}
    (hmid : ∀ e ∈ mid, e ≠ .ok (.startElement "url")) (s : String) (post : List XmlPull) :
    find_url_content (mid ++ .ok (.startElement "url") :: .ok (.characters s) :: post) =
      .brk (some s) := by
  induction mid with
  | nil => simp [find_url_content]
  | cons e rest ih =>
    have hrest : ∀ x ∈ rest, x ≠ XmlPull.ok (.startElement "url") := by
      intro x hx
      exact hmid x (List.mem_cons_of_mem e hx)
    have he : e ≠ XmlPull.ok (.startElement "url") := hmid e (List.mem_cons_self e rest)
    match e with
    | .ok (.startElement name) =>
      have hname : name ≠ "url" := by
        intro h
        exact he (by rw [h])
      simpa [find_url_content, hname] using ih hrest
    | .ok .startDocument => simpa [find_url_content] using ih hrest
    | .ok (.characters c) => simpa [find_url_content] using ih hrest
    | .ok (.endElement n) => simpa [find_url_content] using ih hrest
    | .ok .endDocument => simpa [find_url_content] using ih hrest
    | .err => simpa [find_url_content] using ih hrest

theorem find_url_content_no_url {events : List XmlPull}
    (h : ∀ e ∈ events, e ≠ .ok (.startElement "url")) :
    find_url_content events = .ranOut := by
  induction events with
  | nil => rfl
  | cons e rest ih =>
    have hrest : ∀ x ∈ rest, x ≠ XmlPull.ok (.startElement "url") := by
      intro x hx
      exact h x (List.mem_cons_of_mem e hx)
    have he : e ≠ XmlPull.ok (.startElement "url") := h e (List.mem_cons_self e rest)
    match e with
    | .ok (.startElement name) =>
      have hname : name ≠ "url" := by
        intro hn
        exact he (by rw [hn])
      simpa [find_url_content, hname] using ih hrest
    | .ok .startDocument => simpa [find_url_content] using ih hrest
    | .ok (.characters c) => simpa [find_url_content] using ih hrest
    | .ok (.endElement n) => simpa [find_url_content] using ih hrest
    | .ok .endDocument => simpa [find_url_content] using ih hrest
    | .err => simpa [find_url_content] using ih hrest

theorem find_url_content_ne_brk_none (events : List XmlPull) :
    find_url_content events ≠ .brk none := by
  induction events with
  | nil => simp [find_url_content]
  | cons e rest ih =>
    match e with
    | .ok (.startElement name) =>
      by_cases hname : name = "url"
      · subst hname
        simp only [find_url_content, ne_eq, not_true_eq_false, ite_false]
        match rest with
        | [] => simp
        | .ok (.characters s) :: tail => simp
        | .ok .startDocument :: tail => simp
        | .ok (.startElement n) :: tail => simp
        | .ok (.endElement n) :: tail => simp
        | .ok .endDocument :: tail => simp
        | .err :: tail => simp
      · simpa [find_url_content, hname] using ih
    | .ok .startDocument => simpa [find_url_content] using ih
    | .ok (.characters c) => simpa [find_url_content] using ih
    | .ok (.endElement n) => simpa [find_url_content] using ih
    | .ok .endDocument => simpa [find_url_content] using ih
    | .err => simpa [find_url_content] using ih

/-- Claim C5: (1) when the initial response parses as an XML indirection document
— `StartDocument`, root `roblox`, then (after any events containing no `url`
start element) a `url` element whose text contains `http://www.roblox.com/asset/?id=N`
— the client issues exactly one second download, for `N`, and returns that second
response's bytes, whatever they are; (2) when the initial response is not
parseable XML (its first pulled event is not `Ok(StartDocument)`), the original
bytes are returned unchanged after a single download. -/
theorem claim_C5 :
    (∀ (server : Nat → AssetDeliveryResponse) (id : Nat) (mid post : List XmlPull)
        (s : String) (asset_id_chars : List Char) (n : Nat),
      (server id).events =
          .ok .startDocument :: .ok (.startElement "roblox") :: mid ++
            .ok (.startElement "url") :: .ok (.characters s) :: post →
      (∀ e ∈ mid, e ≠ .ok (.startElement "url")) →
      splitSecondPart assetIdPattern s.data = some asset_id_chars →
      parseU64Chars asset_id_chars = some n →
      legacy_download_image server id = ⟨.ok (server n).bytes, [id, n]⟩) ∧
    (∀ (server : Nat → AssetDeliveryResponse) (id : Nat),
      headOkStartDocument (server id).events = false →
      legacy_download_image server id = ⟨.ok (server id).bytes, [id]⟩) := by
  constructor
  · intro server id mid post s asset_id_chars n hevents hmid hsplit hparse
    have hurl := find_url_content_append hmid s post
    unfold legacy_download_image
    rw [hevents]
    simp [hurl, hsplit, hparse]
  · intro server id hhead
    unfold legacy_download_image
    unfold headOkStartDocument at hhead
    cases hevents : (server id).events with
    | nil => rfl
    | cons e tail =>
      rw [hevents] at hhead
      match e, hhead with
      | .ok .startDocument, h => exact Bool.noConfusion h
      | .ok (.startElement n), _ => rfl
      | .ok (.characters c), _ => rfl
      | .ok (.endElement n), _ => rfl
      | .ok .endDocument, _ => rfl
      | .err, _ => rfl

/-- Witness for claim C5: a server whose response for id 1 is the XML indirection
naming id 999, and whose response for id 2 is raw non-XML bytes. -/
theorem claim_C5_witness :
    legacy_download_image
        (fun k =>
          if k = 1 then
            ⟨[60, 114], [.ok .startDocument, .ok (.startElement "roblox"),
              .ok (.startElement "url"),
              .ok (.characters "http://www.roblox.com/asset/?id=999"),
              .ok (.endElement "url")]⟩
          else ⟨[9, 9, 9], [.err]⟩) 1 =
      ⟨.ok [9, 9, 9], [1, 999]⟩ ∧
    legacy_download_image
        (fun k =>
          if k = 1 then
            ⟨[60, 114], [.ok .startDocument, .ok (.startElement "roblox"),
              .ok (.startElement "url"),
              .ok (.characters "http://www.roblox.com/asset/?id=999"),
              .ok (.endElement "url")]⟩
          else ⟨[9, 9, 9], [.err]⟩) 2 =
      ⟨.ok [9, 9, 9], [2]⟩ := by
  constructor
  · exact claim_C5.1 _ 1 [] [.ok (.endElement "url")]
      "http://www.roblox.com/asset/?id=999" "999".toList 999
      (by decide) (by decide) (by decide) (by decide)
  · exact claim_C5.2 _ 2 (by decide)

/-- Claim C10: the url-search loop terminates only by finding a `url` start
element.  (1) On any event stream with no `Ok(StartElement "url"))` the loop
never breaks — `ranOut`, which models the source loop spinning forever once the
parser is past the end of the document.  (2) The loop's only `break` carries
`Some`, so `find_url_content` never yields `brk none` and the
`missing url element in xml response` bail is unreachable.  (3) Hence a download
whose response is well-formed XML with root `roblox` and no `url` element never
returns: its outcome is `diverged`. -/
theorem claim_C10 :
    (∀ events : List XmlPull,
      (∀ e ∈ events, e ≠ .ok (.startElement "url")) → find_url_content events = .ranOut) ∧
    (∀ events : List XmlPull, find_url_content events ≠ .brk none) ∧
    (∀ (server : Nat → AssetDeliveryResponse) (id : Nat) (afterRoot : List XmlPull),
      (server id).events = .ok .startDocument :: .ok (.startElement "roblox") :: afterRoot →
      (∀ e ∈ afterRoot, e ≠ .ok (.startElement "url")) →
      legacy_download_image server id = ⟨.diverged, [id]⟩) := by
  refine ⟨fun events h => find_url_content_no_url h, find_url_content_ne_brk_none, ?_⟩
  intro server id afterRoot hevents hnone
  have hurl := find_url_content_no_url hnone
  unfold legacy_download_image
  rw [hevents]
  simp [hurl]

/-- Witness for claim C10: a root-only `roblox` document with characters but no
`url` element; the download diverges and the loop reports `ranOut`. -/
theorem claim_C10_witness :
    find_url_content [.ok (.characters "x"), .ok (.endElement "roblox"), .ok .endDocument] =
      .ranOut ∧
    legacy_download_image
        (fun _ => ⟨[60], [.ok .startDocument, .ok (.startElement "roblox"),
          .ok (.characters "x"), .ok (.endElement "roblox"), .ok .endDocument]⟩) 5 =
      ⟨.diverged, [5]⟩ := by
  constructor
  · exact claim_C10.1 _ (by decide)
  · exact claim_C10.2.2 _ 5 [.ok (.characters "x"), .ok (.endElement "roblox"), .ok .endDocument]
      (by decide) (by decide)

/-! ### Legacy client: upload response handling (src/roblox_api/legacy.rs lines 147-207) -/

/-- Model of `RawUploadResponse` (src/roblox_api/legacy.rs lines 28-35): every
field other than `success` is optional in the parsed JSON. -/
structure RawUploadResponse where
  success : Bool
  message : Option String
  asset_id : Option Nat
  backing_asset_id : Option Nat
deriving DecidableEq, Repr

/-- Model of `UploadResponse` (src/roblox_api/mod.rs lines 22-27). -/
structure UploadResponse where
  asset_id : Nat
  backing_asset_id : Nat
deriving DecidableEq, Repr

/-- `reqwest::StatusCode::is_success`: 200..=299. -/
def is_success_status (status : Nat) : Bool := 200 ≤ status && status ≤ 299

/-- The HTTP response the upload endpoint produced (after the CSRF layer). -/
structure UploadHttpResponse where
  status : Nat
  body : String
deriving DecidableEq, Repr

/-- `LegacyClient::upload_image_raw` (src/roblox_api/legacy.rs lines 172-207),
from the final HTTP response on.  `parse_body` models `serde_json::from_str` for
`RawUploadResponse` (the serde machinery is external): on a success status a
parse failure is `BadResponseJson` carrying the raw body; a non-success status is
`ResponseError` carrying status and body. -/
def upload_image_raw (parse_body : String → Option RawUploadResponse)
    (response : UploadHttpResponse) : RustOutcome RawUploadResponse :=
  if is_success_status response.status then
    match parse_body response.body with
    | some parsed => .ok parsed
    | none => .err (.BadResponseJson response.body)
  else .err (.ResponseError response.status response.body)

/-- `LegacyClient::upload_image` (src/roblox_api/legacy.rs lines 148-166): on a
body-level success it calls `.unwrap()` on `asset_id` and `backing_asset_id`; on
a body-level failure it calls `.unwrap()` on `message` and returns `ApiError`.
Each `.unwrap()` on an absent field panics. -/
def legacy_upload_image (parse_body : String → Option RawUploadResponse)
    (response : UploadHttpResponse) : RustOutcome UploadResponse :=
  match upload_image_raw parse_body response with
  | .err e => .err e
  | .panicked msg => .panicked msg
  | .diverged => .diverged
  | .ok raw =>
    if raw.success then
      match raw.asset_id with
      | none => .panicked "called Option::unwrap on a None value"
      | some asset_id =>
        match raw.backing_asset_id with
        | none => .panicked "called Option::unwrap on a None value"
        | some backing_asset_id => .ok ⟨asset_id, backing_asset_id⟩
    else
      match raw.message with
      | none => .panicked "called Option::unwrap on a None value"
      | some message => .err (.ApiError message)

/-- Claim C6: for the legacy upload, (1) a success-status response whose parsed
body has `success = false` and carries a message yields `ApiError` with that
message; (2) a success-status response whose body fails to parse yields
`BadResponseJson` retaining the raw body; (3) a non-success HTTP status yields
`ResponseError` carrying the status and body. -/
theorem claim_C6 :
    ∀ (parse_body : String → Option RawUploadResponse) (response : UploadHttpResponse),
      (∀ (raw : RawUploadResponse) (message : String),
        is_success_status response.status = true →
        parse_body response.body = some raw →
        raw.success = false → raw.message = some message →
        legacy_upload_image parse_body response = .err (.ApiError message)) ∧
      (is_success_status response.status = true →
        parse_body response.body = none →
        legacy_upload_image parse_body response = .err (.BadResponseJson response.body)) ∧
      (is_success_status response.status = false →
        legacy_upload_image parse_body response =
          .err (.ResponseError response.status response.body)) := by
  intro parse_body response
  refine ⟨?_, ?_, ?_⟩
  · intro raw message hstatus hparse hsuccess hmessage
    unfold legacy_upload_image upload_image_raw
    rw [hstatus, hparse]
    simp [hsuccess, hmessage]
  · intro hstatus hparse
    unfold legacy_upload_image upload_image_raw
    rw [hstatus, hparse]
    rfl
  · intro hstatus
    unfold legacy_upload_image upload_image_raw
    rw [hstatus]
    rfl

/-- Witness for claim C6 at concrete responses: a 200 whose body parses with
`success = false` and a message; a 200 whose body does not parse; a 500. -/
theorem claim_C6_witness :
    legacy_upload_image (fun _ => some ⟨false, some "Asset was moderated", none, none⟩)
        ⟨200, "BODY1"⟩ = .err (.ApiError "Asset was moderated") ∧
    legacy_upload_image (fun _ => none) ⟨200, "not json"⟩ =
      .err (.BadResponseJson "not json") ∧
    legacy_upload_image (fun _ => none) ⟨500, "oops"⟩ = .err (.ResponseError 500 "oops") := by
  refine ⟨?_, ?_, ?_⟩
  · exact (claim_C6 (fun _ => some ⟨false, some "Asset was moderated", none, none⟩)
      ⟨200, "BODY1"⟩).1 ⟨false, some "Asset was moderated", none, none⟩
      "Asset was moderated" (by decide) rfl rfl rfl
  · exact (claim_C6 (fun _ => none) ⟨200, "not json"⟩).2.1 (by decide) rfl
  · exact (claim_C6 (fun _ => none) ⟨500, "oops"⟩).2.2 (by decide)

/-- Claim C9: the legacy upload assumes field presence in the parsed body — for a
parsed body with `success = true` an absent `asset_id` or `backing_asset_id`
makes the function panic (the `.unwrap()`), and for `success = false` an absent
`message` makes it panic; it never returns an error value in those cases. -/
theorem claim_C9 :
    ∀ (parse_body : String → Option RawUploadResponse) (response : UploadHttpResponse)
      (raw : RawUploadResponse),
      is_success_status response.status = true →
      parse_body response.body = some raw →
      ((raw.success = true → raw.asset_id = none →
          legacy_upload_image parse_body response =
            .panicked "called Option::unwrap on a None value") ∧
       (∀ asset_id : Nat, raw.success = true → raw.asset_id = some asset_id →
          raw.backing_asset_id = none →
          legacy_upload_image parse_body response =
            .panicked "called Option::unwrap on a None value") ∧
       (raw.success = false → raw.message = none →
          legacy_upload_image parse_body response =
            .panicked "called Option::unwrap on a None value")) := by
  intro parse_body response raw hstatus hparse
  refine ⟨?_, ?_, ?_⟩
  · intro hsuccess hasset
    unfold legacy_upload_image upload_image_raw
    rw [hstatus, hparse]
    simp [hsuccess, hasset]
  · intro asset_id hsuccess hasset hbacking
    unfold legacy_upload_image upload_image_raw
    rw [hstatus, hparse]
    simp [hsuccess, hasset, hbacking]
  · intro hsuccess hmessage
    unfold legacy_upload_image upload_image_raw
    rw [hstatus, hparse]
    simp [hsuccess, hmessage]

/-- Witness for claim C9 at concrete parsed bodies missing the unwrapped field. -/
theorem claim_C9_witness :
    legacy_upload_image (fun _ => some ⟨true, none, none, some 5⟩) ⟨200, "B"⟩ =
      .panicked "called Option::unwrap on a None value" ∧
    legacy_upload_image (fun _ => some ⟨true, none, some 5, none⟩) ⟨200, "B"⟩ =
      .panicked "called Option::unwrap on a None value" ∧
    legacy_upload_image (fun _ => some ⟨false, none, none, none⟩) ⟨200, "B"⟩ =
      .panicked "called Option::unwrap on a None value" := by
  refine ⟨?_, ?_, ?_⟩
  · exact (claim_C9 (fun _ => some ⟨true, none, none, some 5⟩) ⟨200, "B"⟩
      ⟨true, none, none, some 5⟩ (by decide) rfl).1 rfl rfl
  · exact (claim_C9 (fun _ => some ⟨true, none, some 5, none⟩) ⟨200, "B"⟩
      ⟨true, none, some 5, none⟩ (by decide) rfl).2.1 5 rfl rfl rfl
  · exact (claim_C9 (fun _ => some ⟨false, none, none, none⟩) ⟨200, "B"⟩
      ⟨false, none, none, none⟩ (by decide) rfl).2.2 rfl rfl

/-! ### Cache-map builder (src/commands/create_cache_map.rs lines 55-74)

The manifest's `inputs` are modelled as the association list of
`(AssetName, InputManifest.id)` pairs the `for` loop visits (only the `id` field
is read); `uploaded_inputs` is a `BTreeMap<u64, Vec<&AssetName>>`, i.e. an
ordered map whose `entry(id).or_default().push(name)` is modelled by ordered
insertion appending the name. -/

/-- Lookup in the ordered `(id, names)` association list. -/
def lookupG : List (Nat × List String) → Nat → Option (List String)
  | [], _ => none
  | (k, v) :: rest, id => if id = k then some v else lookupG rest id

/-- `uploaded_inputs.entry(id).or_default().push(name)`: ordered-map insertion
that appends `name` to the entry for `id`, creating it if absent. -/
def insertContributor : List (Nat × List String) → Nat → String → List (Nat × List String)
  | [], id, name => [(id, [name])]
  | (k, v) :: rest, id, name =>
    if id = k then (k, v ++ [name]) :: rest
    else if id < k then (id, [name]) :: (k, v) :: rest
    else (k, v) :: insertContributor rest id name

/-- The `for (name, input_manifest) in &manifest.inputs` grouping loop. -/
def groupFold (acc : List (Nat × List String)) : List (String × Option Nat) → List (Nat × List String)
  | [] => acc
  | (name, oid) :: rest =>
    match oid with
    | some id => groupFold (insertContributor acc id name) rest
    | none => groupFold acc rest

/-- The `uploaded_inputs` map built from the manifest inputs. -/
def group_uploaded_inputs (inputs : List (String × Option Nat)) : List (Nat × List String) :=
  groupFold [] inputs

/-- The asset names contributing a given remote id, in manifest order. -/
def contributors (id : Nat) : List (String × Option Nat) → List String
  | [] => []
  | (name, oid) :: rest =>
    if oid = some id then name :: contributors id rest else contributors id rest

/-- Strictly increasing keys — the `BTreeMap` iteration-order invariant. -/
def sortedKeys (m : List (Nat × List String)) : Prop :=
  List.Pairwise (fun a b => a.1 < b.1) m

theorem lookupG_eq_none {m : List (Nat × List String)} {id : Nat}
    (h : ∀ p ∈ m, id ≠ p.1) : lookupG m id = none := by
  induction m with
  | nil => rfl
  | cons p rest ih =>
    obtain ⟨k, v⟩ := p
    have hk : id ≠ k := h (k, v) (List.mem_cons_self _ _)
    simp only [lookupG, if_neg hk]
    exact ih fun q hq => h q (List.mem_cons_of_mem _ hq)

theorem mem_insertContributor {m : List (Nat × List String)} {id : Nat} {name : String}
    {q : Nat × List String} (hq : q ∈ insertContributor m id name) :
    q.1 = id ∨ q ∈ m := by
  induction m with
  | nil =>
    simp only [insertContributor, List.mem_singleton] at hq
    subst hq
    exact Or.inl rfl
  | cons p rest ih =>
    obtain ⟨k, v⟩ := p
    by_cases h1 : id = k
    · simp only [insertContributor, if_pos h1, List.mem_cons] at hq
      rcases hq with hq | hq
      · subst hq
        exact Or.inl h1.symm
      · exact Or.inr (List.mem_cons_of_mem _ hq)
    · by_cases h2 : id < k
      · simp only [insertContributor, if_neg h1, if_pos h2, List.mem_cons] at hq
        rcases hq with hq | hq | hq
        · subst hq
          exact Or.inl rfl
        · exact Or.inr (by simp [hq])
        · exact Or.inr (List.mem_cons_of_mem _ hq)
      · simp only [insertContributor, if_neg h1, if_neg h2, List.mem_cons] at hq
        rcases hq with hq | hq
        · exact Or.inr (by simp [hq])
        · rcases ih hq with h | h
          · exact Or.inl h
          · exact Or.inr (List.mem_cons_of_mem _ h)

theorem sortedKeys_insertContributor {m : List (Nat × List String)} {id : Nat} {name : String}
    (hm : sortedKeys m) : sortedKeys (insertContributor m id name) := by
  induction m with
  | nil => simp [insertContributor, sortedKeys]
  | cons p rest ih =>
    obtain ⟨k, v⟩ := p
    rw [sortedKeys, List.pairwise_cons] at hm
    obtain ⟨hk, hrest⟩ := hm
    by_cases h1 : id = k
    · rw [insertContributor, if_pos h1, sortedKeys, List.pairwise_cons]
      exact ⟨hk, hrest⟩
    · by_cases h2 : id < k
      · rw [insertContributor, if_neg h1, if_pos h2, sortedKeys, List.pairwise_cons]
        refine ⟨?_, ?_⟩
        · intro b hb
          rcases List.mem_cons.mp hb with hb | hb
          · rw [hb]
            exact h2
          · exact lt_trans h2 (hk b hb)
        · rw [List.pairwise_cons]
          exact ⟨hk, hrest⟩
      · rw [insertContributor, if_neg h1, if_neg h2, sortedKeys, List.pairwise_cons]
        refine ⟨?_, ih hrest⟩
        intro b hb
        rcases mem_insertContributor hb with hb | hb
        · rw [hb]
          omega
        · exact hk b hb

theorem lookupG_insertContributor_self {m : List (Nat × List String)} {id : Nat} {name : String}
    (hm : sortedKeys m) :
    lookupG (insertContributor m id name) id = some ((lookupG m id).getD [] ++ [name]) := by
  induction m with
  | nil => simp [insertContributor, lookupG]
  | cons p rest ih =>
    obtain ⟨k, v⟩ := p
    rw [sortedKeys, List.pairwise_cons] at hm
    obtain ⟨hk, hrest⟩ := hm
    by_cases h1 : id = k
    · rw [insertContributor, if_pos h1]
      simp [lookupG, h1]
    · by_cases h2 : id < k
      · rw [insertContributor, if_neg h1, if_pos h2]
        have hnone : lookupG rest id = none := by
          refine lookupG_eq_none fun q hq => ?_
          have := hk q hq
          omega
        simp [lookupG, h1, hnone]
      · rw [insertContributor, if_neg h1, if_neg h2]
        simp [lookupG, h1, ih hrest]

theorem lookupG_insertContributor_other {m : List (Nat × List String)} {id j : Nat}
    {name : String} (hj : j ≠ id) :
    lookupG (insertContributor m id name) j = lookupG m j := by
  induction m with
  | nil => simp [insertContributor, lookupG, hj]
  | cons p rest ih =>
    obtain ⟨k, v⟩ := p
    by_cases h1 : id = k
    · subst h1
      rw [insertContributor, if_pos rfl]
      simp [lookupG, hj]
    · by_cases h2 : id < k
      · rw [insertContributor, if_neg h1, if_pos h2]
        simp [lookupG, hj]
      · rw [insertContributor, if_neg h1, if_neg h2]
        by_cases h3 : j = k
        · simp [lookupG, h3]
        · simp [lookupG, h3, ih]

theorem sortedKeys_groupFold {inputs : List (String × Option Nat)}
    {acc : List (Nat × List String)} (hacc : sortedKeys acc) :
    sortedKeys (groupFold acc inputs) := by
  induction inputs generalizing acc with
  | nil => exact hacc
  | cons p rest ih =>
    obtain ⟨name, oid⟩ := p
    match oid with
    | some id => exact ih (sortedKeys_insertContributor hacc)
    | none => exact ih hacc

theorem lookupG_groupFold_getD {inputs : List (String × Option Nat)} {id : Nat}
    {acc : List (Nat × List String)} (hacc : sortedKeys acc) :
    (lookupG (groupFold acc inputs) id).getD [] =
      (lookupG acc id).getD [] ++ contributors id inputs := by
  induction inputs generalizing acc with
  | nil => simp [groupFold, contributors]
  | cons p rest ih =>
    obtain ⟨name, oid⟩ := p
    match oid with
    | some j =>
      by_cases hj : j = id
      · subst hj
        rw [groupFold]
        rw [ih (sortedKeys_insertContributor hacc)]
        rw [lookupG_insertContributor_self hacc]
        simp [contributors]
      · rw [groupFold]
        rw [ih (sortedKeys_insertContributor hacc)]
        rw [lookupG_insertContributor_other fun h => hj h.symm]
        have : (some j = some id) = False := by simp [hj]
        simp [contributors, hj]
    | none =>
      rw [groupFold, ih hacc]
      simp [contributors]

theorem lookupG_groupFold_none {inputs : List (String × Option Nat)} {id : Nat}
    {acc : List (Nat × List String)} (hacc : sortedKeys acc) :
    lookupG (groupFold acc inputs) id = none ↔
      (lookupG acc id = none ∧ contributors id inputs = []) := by
  induction inputs generalizing acc with
  | nil => simp [groupFold, contributors]
  | cons p rest ih =>
    obtain ⟨name, oid⟩ := p
    match oid with
    | some j =>
      by_cases hj : j = id
      · subst hj
        rw [groupFold, ih (sortedKeys_insertContributor hacc)]
        rw [lookupG_insertContributor_self hacc]
        simp [contributors]
      · rw [groupFold, ih (sortedKeys_insertContributor hacc)]
        rw [lookupG_insertContributor_other fun h => hj h.symm]
        simp [contributors, hj]
    | none =>
      rw [groupFold, ih hacc]
      simp [contributors]

theorem lookupG_group_uploaded_inputs (inputs : List (String × Option Nat)) (id : Nat) :
    lookupG (group_uploaded_inputs inputs) id =
      (if contributors id inputs = [] then none else some (contributors id inputs)) := by
  by_cases h : contributors id inputs = []
  · rw [if_pos h]
    exact (lookupG_groupFold_none List.Pairwise.nil).mpr ⟨rfl, h⟩
  · rw [if_neg h]
    cases hl : lookupG (group_uploaded_inputs inputs) id with
    | none =>
      have := (@lookupG_groupFold_none inputs id [] List.Pairwise.nil).mp hl
      exact absurd this.2 h
    | some l =>
      have hgetD := @lookupG_groupFold_getD inputs id [] List.Pairwise.nil
      rw [group_uploaded_inputs] at hl
      rw [hl] at hgetD
      simp only [lookupG, Option.getD_some, Option.getD_none, List.nil_append] at hgetD
      rw [hgetD]

/-- Result of the cache-map build loop: the index written out as JSON, the ids
passed to `download_image`, in call order, and the files written (path, bytes). -/
structure CacheMapResult where
  index : List (Nat × String)
  downloads : List Nat
  writes : List (String × List Nat)
deriving DecidableEq, Repr

/-- The `for (id, contributing_assets) in uploaded_inputs` loop
(src/commands/create_cache_map.rs lines 63-74).  `server id` is the byte content
`download_image(id)` returns (the claims exercise only successful downloads).
A single contributor indexes its own path; otherwise the content is downloaded
once, written to `<cache_dir>/<id>`, and that path is indexed. -/
def cache_map_loop (server : Nat → List Nat) (cache_dir : String) :
    List (Nat × List String) → CacheMapResult
  | [] => ⟨[], [], []⟩
  | (id, contributing_assets) :: rest =>
    if contributing_assets.length = 1 then
      ⟨(id, contributing_assets.headI) :: (cache_map_loop server cache_dir rest).index,
       (cache_map_loop server cache_dir rest).downloads,
       (cache_map_loop server cache_dir rest).writes⟩
    else
      ⟨(id, cache_dir ++ "/" ++ toString id) :: (cache_map_loop server cache_dir rest).index,
       id :: (cache_map_loop server cache_dir rest).downloads,
       (cache_dir ++ "/" ++ toString id, server id) ::
         (cache_map_loop server cache_dir rest).writes⟩

/-- `create_cache_map` (src/commands/create_cache_map.rs lines 30-81), restricted
to its core: group the manifest inputs by remote id, then build the index. -/
def create_cache_map (server : Nat → List Nat) (cache_dir : String)
    (inputs : List (String × Option Nat)) : CacheMapResult :=
  cache_map_loop server cache_dir (group_uploaded_inputs inputs)

theorem cache_map_loop_filter_none (server : Nat → List Nat) (cache_dir : String)
    {groups : List (Nat × List String)} {id : Nat} (hnone : lookupG groups id = none) :
    (cache_map_loop server cache_dir groups).index.filter (fun e => e.1 == id) = [] := by
  induction groups with
  | nil => rfl
  | cons p rest ih =>
    obtain ⟨k, assets⟩ := p
    rw [lookupG] at hnone
    by_cases hid : id = k
    · rw [if_pos hid] at hnone
      exact Option.noConfusion hnone
    · rw [if_neg hid] at hnone
      have hke : (k == id) = false := by
        have hki : ¬k = id := fun h => hid h.symm
        simp [hki]
      by_cases hlen : assets.length = 1
      · rw [cache_map_loop, if_pos hlen]
        simp only [List.filter, hke]
        exact ih hnone
      · rw [cache_map_loop, if_neg hlen]
        simp only [List.filter, hke]
        exact ih hnone

theorem cache_map_loop_filter_some (server : Nat → List Nat) (cache_dir : String)
    {groups : List (Nat × List String)} {id : Nat} {l : List String}
    (hs : sortedKeys groups) (hl : lookupG groups id = some l) :
    (cache_map_loop server cache_dir groups).index.filter (fun e => e.1 == id) =
      [(id, if l.length = 1 then l.headI else cache_dir ++ "/" ++ toString id)] := by
  induction groups with
  | nil => exact Option.noConfusion hl
  | cons p rest ih =>
    obtain ⟨k, assets⟩ := p
    rw [sortedKeys, List.pairwise_cons] at hs
    obtain ⟨hk, hrest⟩ := hs
    rw [lookupG] at hl
    by_cases hid : id = k
    · subst hid
      rw [if_pos rfl] at hl
      have hal : assets = l := by
        injection hl
      subst hal
      have hnone : lookupG rest id = none := by
        refine lookupG_eq_none fun q hq => ?_
        have := hk q hq
        omega
      have hrest0 := @cache_map_loop_filter_none server cache_dir rest id hnone
      by_cases hlen : assets.length = 1
      · rw [cache_map_loop, if_pos hlen]
        simp [List.filter, beq_self_eq_true, hrest0, if_pos hlen]
      · rw [cache_map_loop, if_neg hlen]
        simp [List.filter, beq_self_eq_true, if_neg hlen, hrest0, hlen]
    · rw [if_neg hid] at hl
      have hke : (k == id) = false := by
        have hki : ¬k = id := fun h => hid h.symm
        simp [hki]
      by_cases hlen : assets.length = 1
      · rw [cache_map_loop, if_pos hlen]
        simp only [List.filter, hke]
        exact ih hrest hl
      · rw [cache_map_loop, if_neg hlen]
        simp only [List.filter, hke]
        exact ih hrest hl

theorem cache_map_loop_downloads_mem (server : Nat → List Nat) (cache_dir : String)
    {groups : List (Nat × List String)} {x : Nat}
    (hx : x ∈ (cache_map_loop server cache_dir groups).downloads) :
    lookupG groups x ≠ none := by
  induction groups with
  | nil => simp [cache_map_loop] at hx
  | cons p rest ih =>
    obtain ⟨k, assets⟩ := p
    by_cases hxk : x = k
    · simp [lookupG, hxk]
    · have step : x ∈ (cache_map_loop server cache_dir rest).downloads := by
        by_cases hlen : assets.length = 1
        · rw [cache_map_loop, if_pos hlen] at hx
          exact hx
        · rw [cache_map_loop, if_neg hlen] at hx
          simp only [List.mem_cons] at hx
          exact hx.resolve_left hxk
      simpa [lookupG, hxk] using ih step

theorem cache_map_loop_count_some (server : Nat → List Nat) (cache_dir : String)
    {groups : List (Nat × List String)} {id : Nat} {l : List String}
    (hs : sortedKeys groups) (hl : lookupG groups id = some l) :
    (cache_map_loop server cache_dir groups).downloads.count id =
      (if l.length = 1 then 0 else 1) := by
  induction groups with
  | nil => exact Option.noConfusion hl
  | cons p rest ih =>
    obtain ⟨k, assets⟩ := p
    rw [sortedKeys, List.pairwise_cons] at hs
    obtain ⟨hk, hrest⟩ := hs
    rw [lookupG] at hl
    by_cases hid : id = k
    · subst hid
      rw [if_pos rfl] at hl
      have hal : assets = l := by
        injection hl
      subst hal
      have hnone : lookupG rest id = none := by
        refine lookupG_eq_none fun q hq => ?_
        have := hk q hq
        omega
      have hzero : (cache_map_loop server cache_dir rest).downloads.count id = 0 := by
        rw [List.count_eq_zero]
        intro hmem
        exact cache_map_loop_downloads_mem server cache_dir hmem hnone
      by_cases hlen : assets.length = 1
      · rw [cache_map_loop, if_pos hlen, if_pos hlen]
        exact hzero
      · rw [cache_map_loop, if_neg hlen, if_neg hlen]
        simp [List.count_cons, hzero]
    · rw [if_neg hid] at hl
      have hki : ¬k = id := fun h => hid h.symm
      by_cases hlen : assets.length = 1
      · rw [cache_map_loop, if_pos hlen]
        exact ih hrest hl
      · rw [cache_map_loop, if_neg hlen]
        simpa [List.count_cons, hki] using ih hrest hl

theorem cache_map_loop_writes (server : Nat → List Nat) (cache_dir : String)
    {groups : List (Nat × List String)} {id : Nat} {l : List String}
    (hl : lookupG groups id = some l) (hlen : l.length ≠ 1) :
    (cache_dir ++ "/" ++ toString id, server id) ∈
      (cache_map_loop server cache_dir groups).writes := by
  induction groups with
  | nil => exact Option.noConfusion hl
  | cons p rest ih =>
    obtain ⟨k, assets⟩ := p
    rw [lookupG] at hl
    by_cases hid : id = k
    · subst hid
      rw [if_pos rfl] at hl
      have hal : assets = l := by
        injection hl
      subst hal
      rw [cache_map_loop, if_neg hlen]
      exact List.mem_cons_self _ _
    · rw [if_neg hid] at hl
      have step := ih hl
      by_cases hlen2 : assets.length = 1
      · rw [cache_map_loop, if_pos hlen2]
        exact step
      · rw [cache_map_loop, if_neg hlen2]
        exact List.mem_cons_of_mem _ step

/-- Claim C3: the cache-map builder groups AssetNames by remote id (the group of
an id is exactly its contributors, in manifest order, and absent ids have no
entry); an id with exactly one contributor gets that AssetName's own path as its
sole index entry and zero download calls; an id with more than one contributor
gets exactly one download call, a write of the downloaded bytes to
`<cacheDir>/<remoteId>`, and exactly one index entry for that id, holding that
cache path. -/
theorem claim_C3 :
    ∀ (server : Nat → List Nat) (cache_dir : String)
      (inputs : List (String × Option Nat)) (id : Nat),
      lookupG (group_uploaded_inputs inputs) id =
        (if contributors id inputs = [] then none else some (contributors id inputs)) ∧
      (∀ a : String, contributors id inputs = [a] →
        (create_cache_map server cache_dir inputs).index.filter (fun e => e.1 == id) =
          [(id, a)] ∧
        (create_cache_map server cache_dir inputs).downloads.count id = 0) ∧
      (2 ≤ (contributors id inputs).length →
        (create_cache_map server cache_dir inputs).downloads.count id = 1 ∧
        (create_cache_map server cache_dir inputs).index.filter (fun e => e.1 == id) =
          [(id, cache_dir ++ "/" ++ toString id)] ∧
        (cache_dir ++ "/" ++ toString id, server id) ∈
          (create_cache_map server cache_dir inputs).writes) := by
  intro server cache_dir inputs id
  have hs : sortedKeys (group_uploaded_inputs inputs) :=
    sortedKeys_groupFold List.Pairwise.nil
  have hlk := lookupG_group_uploaded_inputs inputs id
  refine ⟨hlk, ?_, ?_⟩
  · intro a ha
    have hne : contributors id inputs ≠ [] := by
      rw [ha]
      simp
    rw [if_neg hne, ha] at hlk
    constructor
    · rw [create_cache_map, cache_map_loop_filter_some server cache_dir hs hlk]
      simp
    · rw [create_cache_map, cache_map_loop_count_some server cache_dir hs hlk]
      simp
  · intro hlen
    have hne : contributors id inputs ≠ [] := by
      intro h
      rw [h] at hlen
      simp at hlen
    rw [if_neg hne] at hlk
    have hlen1 : (contributors id inputs).length ≠ 1 := by omega
    refine ⟨?_, ?_, ?_⟩
    · rw [create_cache_map, cache_map_loop_count_some server cache_dir hs hlk, if_neg hlen1]
    · rw [create_cache_map, cache_map_loop_filter_some server cache_dir hs hlk, if_neg hlen1]
    · exact cache_map_loop_writes server cache_dir hlk hlen1

/-- Witness for claim C3 on the spec's end-to-end scenario A: ids 42 (two
contributors) and 7 (one contributor), cache dir `/tmp/c`. -/
theorem claim_C3_witness :
    (create_cache_map (fun i => [i]) "/tmp/c"
        [("sword.png", some 42), ("shield.png", some 42), ("helmet.png", some 7)]).index.filter
        (fun e => e.1 == 7) = [(7, "helmet.png")] ∧
    (create_cache_map (fun i => [i]) "/tmp/c"
        [("sword.png", some 42), ("shield.png", some 42), ("helmet.png", some 7)]).downloads.count
        7 = 0 ∧
    (create_cache_map (fun i => [i]) "/tmp/c"
        [("sword.png", some 42), ("shield.png", some 42), ("helmet.png", some 7)]).downloads.count
        42 = 1 ∧
    (create_cache_map (fun i => [i]) "/tmp/c"
        [("sword.png", some 42), ("shield.png", some 42), ("helmet.png", some 7)]).index.filter
        (fun e => e.1 == 42) = [(42, "/tmp/c" ++ "/" ++ toString 42)] ∧
    ("/tmp/c" ++ "/" ++ toString 42, [42]) ∈
      (create_cache_map (fun i => [i]) "/tmp/c"
        [("sword.png", some 42), ("shield.png", some 42), ("helmet.png", some 7)]).writes := by
  have h7 := (claim_C3 (fun i => [i]) "/tmp/c"
    [("sword.png", some 42), ("shield.png", some 42), ("helmet.png", some 7)] 7).2.1
    "helmet.png" (by decide)
  have h42 := (claim_C3 (fun i => [i]) "/tmp/c"
    [("sword.png", some 42), ("shield.png", some 42), ("helmet.png", some 7)] 42).2.2
    (by decide)
  exact ⟨h7.1, h7.2, h42.1, h42.2.1, h42.2.2⟩

/-! ### Image preprocessing pipeline (src/commands/upload_image.rs lines 65-87)

`alpha_bleed` lives in src/alpha_bleed.rs, which is not present under src/; it is
modelled from the spec below.  The `image` crate's decoder and Gaussian resampler
are external: decoding is an oracle, and the resampler is an oracle wrapped so
that its output buffer has exactly the requested dimensions (the crate's
`ImageBuffer::new(w, h)` guarantee). -/

/-- An RGBA pixel with `Nat` channels. -/
structure Rgba where
  r : Nat
  g : Nat
  b : Nat
  a : Nat
deriving DecidableEq, Repr

/-- An in-memory RGBA raster. -/
structure Img where
  width : Nat
  height : Nat
  pixel : Nat → Nat → Rgba

/-- The Gaussian resampler's pixel production, an oracle for the `image` crate. -/
structure ResizeSampler where
  sample : Img → Nat → Nat → Nat → Nat → Rgba

/-- `image::imageops::resize(&img, width, height, FilterType::Gaussian)`: the
output buffer has exactly the target dimensions; its content comes from the
library's resampler. -/
def resizeGaussian (sampler : ResizeSampler) (img : Img) (w h : Nat) : Img :=
  ⟨w, h, fun x y => sampler.sample img w h x y⟩

/-- All raster coordinates of a `w × h` image in raster-scan order. -/
def rasterCoords (w h : Nat) : List (Nat × Nat) :=
  (List.range h).flatMap fun y => (List.range w).map fun x => (x, y)

/-- Squared Euclidean distance between two coordinates. -/
def dist2 (p q : Nat × Nat) : Int :=
  ((p.1 : Int) - (q.1 : Int)) ^ 2 + ((p.2 : Int) - (q.2 : Int)) ^ 2

/-- Modelled from the spec: the nearest pixel with non-zero alpha (Euclidean
distance, raster-scan order as the tie-break), used by `alpha_bleed`
(src/alpha_bleed.rs is absent from src/; spec section 4.1 defines it). -/
def nearestOpaque (img : Img) (x y : Nat) : Option (Nat × Nat) :=
  (rasterCoords img.width img.height).foldl
    (fun best c =>
      if (img.pixel c.1 c.2).a = 0 then best
      else
        match best with
        | none => some c
        | some b => if dist2 (x, y) c < dist2 (x, y) b then some c else some b)
    none

/-- Modelled from the spec: `alpha_bleed` (src/alpha_bleed.rs is absent from
src/; spec section 4.1): every pixel whose alpha is exactly zero takes the RGB of
the nearest non-zero-alpha pixel; alpha values and dimensions are never
modified; a fully transparent image is left unchanged. -/
def alpha_bleed (img : Img) : Img :=
  ⟨img.width, img.height, fun x y =>
    if (img.pixel x y).a = 0 then
      match nearestOpaque img x y with
      | some q => ⟨(img.pixel q.1 q.2).r, (img.pixel q.1 q.2).g, (img.pixel q.1 q.2).b,
          (img.pixel x y).a⟩
      | none => img.pixel x y
    else img.pixel x y⟩

/-- One observable step of the upload-image preprocessing pipeline. -/
inductive PipelineStep where
  | load
  | resizeTo (w h : Nat)
  | bleed
  | encodePng (w h : Nat)
deriving DecidableEq, Repr

/-- The PNG the pipeline encodes: `PngEncoder::encode(img.to_bytes(), width,
height, color)` with `(width, height) = img.dimensions()` taken after bleeding. -/
structure EncodedPng where
  width : Nat
  height : Nat
  raster : Nat → Nat → Rgba

/-- The preprocessing portion of `upload_image` (src/commands/upload_image.rs
lines 65-87): with a resize target the raw bytes are decoded and resized with the
Gaussian filter first; `alpha_bleed` mutates the raster afterwards; the PNG is
encoded at the bled raster's dimensions.  The second component is the ordered
trace of the steps performed. -/
def upload_image_pipeline (decode : List Nat → Option Img) (sampler : ResizeSampler)
    (raw_bytes : List Nat) (resize_to : Option (Nat × Nat)) :
    RustOutcome EncodedPng × List PipelineStep :=
  match resize_to with
  | some (w, h) =>
    match decode raw_bytes with
    | none => (.err (.BailMsg "DecodeError"), [.load])
    | some img =>
      (.ok ⟨(alpha_bleed (resizeGaussian sampler img w h)).width,
            (alpha_bleed (resizeGaussian sampler img w h)).height,
            (alpha_bleed (resizeGaussian sampler img w h)).pixel⟩,
       [.load, .resizeTo w h, .bleed,
        .encodePng (alpha_bleed (resizeGaussian sampler img w h)).width
          (alpha_bleed (resizeGaussian sampler img w h)).height])
  | none =>
    match decode raw_bytes with
    | none => (.err (.BailMsg "DecodeError"), [.load])
    | some img =>
      (.ok ⟨(alpha_bleed img).width, (alpha_bleed img).height, (alpha_bleed img).pixel⟩,
       [.load, .bleed, .encodePng (alpha_bleed img).width (alpha_bleed img).height])

/-- Claim C8: with a resize target `(w, h)` the decoded image is resampled to
exactly `(w, h)` by the Gaussian resizer first, alpha-bleeding is applied only
afterwards — the encoded raster is literally `alpha_bleed (resizeGaussian ...)`,
never `resizeGaussian (alpha_bleed ...)` — the step trace is load, resize, bleed,
encode in that order, the PNG is encoded at the bled raster's dimensions
`(w, h)`, and bleeding leaves every alpha value of the resized raster unchanged. -/
theorem claim_C8 :
    ∀ (decode : List Nat → Option Img) (sampler : ResizeSampler)
      (raw_bytes : List Nat) (w h : Nat) (img : Img),
      decode raw_bytes = some img →
      (upload_image_pipeline decode sampler raw_bytes (some (w, h))).1 =
        .ok ⟨w, h, (alpha_bleed (resizeGaussian sampler img w h)).pixel⟩ ∧
      (upload_image_pipeline decode sampler raw_bytes (some (w, h))).2 =
        [.load, .resizeTo w h, .bleed, .encodePng w h] ∧
      (alpha_bleed (resizeGaussian sampler img w h)).width = w ∧
      (alpha_bleed (resizeGaussian sampler img w h)).height = h ∧
      (∀ x y : Nat,
        ((alpha_bleed (resizeGaussian sampler img w h)).pixel x y).a =
          ((resizeGaussian sampler img w h).pixel x y).a) := by
  intro decode sampler raw_bytes w h img hdecode
  refine ⟨?_, ?_, rfl, rfl, ?_⟩
  · rw [upload_image_pipeline, hdecode]
    rfl
  · rw [upload_image_pipeline, hdecode]
    rfl
  · intro x y
    simp only [alpha_bleed]
    by_cases ha : ((resizeGaussian sampler img w h).pixel x y).a = 0
    · rw [if_pos ha]
      cases nearestOpaque (resizeGaussian sampler img w h) x y with
      | none => rfl
      | some q => rfl
    · rw [if_neg ha]

/-- Witness for claim C8 at a concrete 4x4 decoded image resized to 2x3. -/
theorem claim_C8_witness :
    (upload_image_pipeline (fun _ => some ⟨4, 4, fun _ _ => ⟨1, 2, 3, 4⟩⟩)
        ⟨fun _ _ _ _ _ => ⟨7, 7, 7, 0⟩⟩ [0, 1] (some (2, 3))).2 =
      [.load, .resizeTo 2 3, .bleed, .encodePng 2 3] ∧
    (alpha_bleed (resizeGaussian ⟨fun _ _ _ _ _ => ⟨7, 7, 7, 0⟩⟩
        ⟨4, 4, fun _ _ => ⟨1, 2, 3, 4⟩⟩ 2 3)).width = 2 := by
  have h := claim_C8 (fun _ => some ⟨4, 4, fun _ _ => ⟨1, 2, 3, 4⟩⟩)
    ⟨fun _ _ _ _ _ => ⟨7, 7, 7, 0⟩⟩ [0, 1] 2 3 ⟨4, 4, fun _ _ => ⟨1, 2, 3, 4⟩⟩ rfl
  exact ⟨h.2.1, h.2.2.1⟩
